import Mathlib

/-!
# go-curl-transport: handle pool and request/response bridge

A shallow embedding of `pool/pool.go` and `transport/transport.go`.

* Go byte slices are `List UInt8`, Go strings that are only compared or
  concatenated (method, URL, header names) are `String`.
* A Go `error` is its message; `nil` is `none`.
* The native engine (libcurl through go-curl), the body stream, `sync.Pool`,
  map iteration order, `strings.ToUpper`, `os.Getenv` and `http.ReadResponse`
  are collaborators outside the repository: they are fields of `Env`, and every
  theorem holds for all of them.
* Effects on the outside world are recorded, in order, in `World.log`.
* A `defer` is the deferred call made after the rest of the function returns.
  Panics (and the `recover` of `RoundTrip`) and the two mutexes are outside the
  model: every function is run by one caller at a time.
-/

namespace CurlTransport

/-- A Go byte. -/
abbrev Byte := UInt8

/-- A Go `error` value, identified by its message. -/
abbrev error := String

/-! ## bufio.Scanner with the default split function (ScanLines) -/

/-- The constant `bufio.MaxScanTokenSize`: the largest buffer a Scanner allocates. -/
def MaxScanTokenSize : Nat := 64 * 1024

/-- The helper `dropCR` of package bufio: drops one terminal carriage return. -/
def dropCR (data : List Byte) : List Byte :=
  if data.getLast? = some 13 then data.dropLast else data

/-- The tokens successive `scanner.Scan()` calls deliver for the unread input
`data`, where `cur` holds (reversed) the bytes of the current line read so far.
A line ends at a line feed; a non-empty final line needs no line feed. A line
that does not fit the scanner's buffer (`MaxScanTokenSize` bytes, line feed
included when there is one) makes `Scan` return false with `ErrTooLong`, which
ends the loop of `readHeader`. -/
def scanFrom (cur : List Byte) : List Byte → List (List Byte)
  | [] =>
    if cur.isEmpty then []
    else if cur.length < MaxScanTokenSize then [dropCR cur.reverse]
    else []
  | b :: rest =>
    if b = 10 then
      if cur.length < MaxScanTokenSize then dropCR cur.reverse :: scanFrom [] rest
      else []
    else scanFrom (b :: cur) rest

/-- Every token of `bufio.NewScanner(bytes.NewReader(data))`, in order. -/
def scanLines (data : List Byte) : List (List Byte) := scanFrom [] data

/-! ## Writers -/

/-- The interface `WriterResetter`, over a writer whose state has type `σ`:
`Write` gives the new state and the error, `Reset` the emptied state. -/
structure WriterResetter (σ : Type) where
  Write : σ → List Byte → σ × Option error
  Reset : σ → σ

/-- The type `bytes.Buffer` as a `WriterResetter`: the state is the unread
content, `Write` appends and returns a nil error, `Reset` empties. -/
def Buffer : WriterResetter (List Byte) where
  Write := fun buf p => (buf ++ p, none)
  Reset := fun _ => []

/-- The bytes of the string "HTTP/1.". -/
def statusPrefix : List Byte := [72, 84, 84, 80, 47, 49, 46]

/-- The call `strings.HasPrefix(line, "HTTP/1.")`. -/
def isStatusLine (line : List Byte) : Bool := statusPrefix.isPrefixOf line

/-- The loop body of `readHeader` run over the scanned lines. -/
def readHeaderLines {σ τ : Type} (H : WriterResetter σ) (B : WriterResetter τ) :
    List (List Byte) → σ → τ → σ × τ × Option error
  | [], header, body => (header, body, none)
  | line :: rest, header, body =>
    let hb : σ × τ :=
      if isStatusLine line then (H.Reset header, B.Reset body) else (header, body)
    match H.Write hb.1 line with
    | (header1, some err) => (header1, hb.2, some err)
    | (header1, none) =>
      match H.Write header1 [10] with
      | (header2, some err) => (header2, hb.2, some err)
      | (header2, none) => readHeaderLines H B rest header2 hb.2

/-- The function `readHeader`: the final states of the two writers and the
returned error. -/
def readHeader {σ τ : Type} (H : WriterResetter σ) (B : WriterResetter τ)
    (responseHeaders : List Byte) (header : σ) (body : τ) : σ × τ × Option error :=
  readHeaderLines H B (scanLines responseHeaders) header body

/-- The function `readBody`. -/
def readBody {τ : Type} (B : WriterResetter τ) (respBody : List Byte) (body : τ) :
    τ × Option error :=
  B.Write body respBody

/-! ## The native engine as seen from Go -/

/-- A native handle `*curl.CURL`, identified by a number. -/
structure CURL where
  id : Nat
deriving DecidableEq, Repr

/-- The go-curl option keys the transport uses. -/
inductive Opt where
  | URL | COOKIESESSION | VERBOSE | MAXREDIRS | CUSTOMREQUEST | POST
  | TCP_NODELAY | HTTP_VERSION | HTTPHEADER
  | READFUNCTION | WRITEFUNCTION | HEADERFUNCTION
deriving DecidableEq, Repr

/-- The `interface{}` values passed to `Setopt`; a closure is named by its variable. -/
inductive OptValue where
  | str (s : String)
  | bool (b : Bool)
  | int (n : Int)
  | strs (l : List String)
  | func (name : String)
deriving DecidableEq, Repr

/-- The constant `curl.HTTP_VERSION_1_0`. -/
def HTTP_VERSION_1_0 : OptValue := .int 1

/-- The constant `curl.HTTP_VERSION_1_1`. -/
def HTTP_VERSION_1_1 : OptValue := .int 2

/-- One callback invocation made by the engine while `Perform` runs: the read
callback with a buffer of `len` bytes, the write callback with a body chunk, the
header callback with a header chunk. -/
inductive Callback where
  | read (len : Nat)
  | write (chunk : List Byte)
  | header (chunk : List Byte)
deriving DecidableEq, Repr

/-- What the program does to the outside world, in order. -/
inductive Event where
  | EasyInit (c : CURL)
  | SetFinalizer (c : CURL) (armed : Bool)
  | Setopt (c : CURL) (key : Opt) (value : OptValue)
  | PostConfigure (c : CURL) (calls : List (Opt × OptValue))
  | Perform (c : CURL)
  | Reset (c : CURL)
  | Put (c : CURL)
deriving DecidableEq, Repr

/-- The state outside the transport: the number of the next handle
`curl.EasyInit` creates, and the events so far. -/
structure World where
  next : Nat
  log : List Event
deriving DecidableEq, Repr

/-- Appends an event to the log. -/
def World.record (w : World) (e : Event) : World :=
  { w with log := w.log ++ [e] }

/-- An `io.Reader`: `Read k len` is what the call number `k` (from 0) returns
for a buffer of `len` bytes, the count of bytes read and the error. -/
structure Reader where
  Read : Nat → Nat → Nat × Option error

/-- The error `io.EOF`. -/
def EOF : error := "EOF"

/-- The fields of `http.Request` the transport reads. `URL` is `req.URL.String()`,
`Header` the entries of the header mapping. -/
structure Request where
  Method : String
  URL : String
  Header : List (String × List String)
  Body : Option Reader
  ProtoMajor : Int
  ProtoMinor : Int
  ContentLength : Int

/-- An `http.Response`, as far as the bridge is concerned. -/
structure Response where
  StatusCode : Int
  Body : List Byte
deriving DecidableEq, Repr

/-- The box `curlBox`. -/
structure curlBox where
  curl : CURL
deriving DecidableEq, Repr

/-- A Go map with keys of type `κ`, as its entries. -/
abbrev GoMap (κ ν : Type) := List (κ × ν)

/-- The assignment `m[k] = v`. -/
def GoMap.set {κ ν : Type} [DecidableEq κ] (m : GoMap κ ν) (k : κ) (v : ν) : GoMap κ ν :=
  m.filter (fun e => decide (e.1 ≠ k)) ++ [(k, v)]

/-- The collaborators of the transport. `rangeOptions` and `rangeHeader` give
the order in which a `range` loop visits a map; `poolPick` is the choice
`sync.Pool.Get` makes among the stored items (no item is dropped); `Setopt` is
the error of the native set-option call; `Perform` gives the callbacks the
engine makes and the error it returns. -/
structure Env where
  CURL_DEBUG : String
  ToUpper : String → String
  rangeOptions : GoMap Opt OptValue → List (Opt × OptValue)
  rangeOptions_perm : ∀ m, (rangeOptions m).Perm m
  rangeHeader : GoMap String (List String) → List (String × List String)
  rangeHeader_perm : ∀ m, (rangeHeader m).Perm m
  poolPick : List curlBox → Nat
  Setopt : CURL → Opt → OptValue → Option error
  Perform : CURL → Request → List Callback × Option error
  ReadResponse : List Byte → Request → Option Response × Option error

/-! ## pool.go -/

/-- The type `FinalizingPool`: the items of its `sync.Pool`. -/
structure FinalizingPool where
  pool : List curlBox
deriving DecidableEq, Repr

/-- The method `sync.Pool.Get`: an item and the remaining items, or `none`
(Go's nil) when there is no item. -/
def syncPoolGet (E : Env) (items : List curlBox) : Option (curlBox × List curlBox) :=
  match items[E.poolPick items % items.length]? with
  | none => none
  | some box => some (box, items.eraseIdx (E.poolPick items % items.length))

/-- The method `sync.Pool.Put`. -/
def syncPoolPut (items : List curlBox) (box : curlBox) : List curlBox :=
  items ++ [box]

/-- The method `FinalizingPool.Get`. -/
def FinalizingPool.Get (E : Env) (p : FinalizingPool) (w : World) :
    CURL × FinalizingPool × World :=
  match syncPoolGet E p.pool with
  | some (container, items) =>
    (container.curl, { pool := items }, w.record (.SetFinalizer container.curl false))
  | none =>
    let newCurl : CURL := ⟨w.next⟩
    (newCurl, p, { next := w.next + 1, log := w.log ++ [.EasyInit newCurl] })

/-- The method `FinalizingPool.Put`. -/
def FinalizingPool.Put (p : FinalizingPool) (c : CURL) (w : World) :
    FinalizingPool × World :=
  let container : curlBox := ⟨c⟩
  let w := w.record (.SetFinalizer c true)
  ({ pool := syncPoolPut p.pool container }, w.record (.Put c))

/-! ## transport.go -/

/-- The hook type `PostConfigure`: the set-option calls the hook makes and the
error it returns. -/
abbrev PostConfigure := CURL → Request → List (Opt × OptValue) × Option error

/-- The type `Transport`. `Pool` is `none` for a nil pointer. -/
structure Transport where
  Pool : Option FinalizingPool
  PostConfigure : Option PostConfigure

/-- The constructor `New`. -/
def New : Transport := { Pool := some { pool := [] }, PostConfigure := none }

/-- The first part of `configure`: the `options` map, or the error returned
before the loop over it. -/
def configureOptions (E : Env) (req : Request) : Except error (GoMap Opt OptValue) :=
  let options : GoMap Opt OptValue := []
  let options := options.set .URL (.str req.URL)
  let options := options.set .COOKIESESSION (.bool true)
  let options := options.set .VERBOSE (.bool (decide (E.CURL_DEBUG = "1")))
  let options := options.set .MAXREDIRS (.int 20)
  let options :=
    if req.Method ≠ "GET" ∧ req.Method ≠ "POST" then
      options.set .CUSTOMREQUEST (.str (E.ToUpper req.Method))
    else options
  let options :=
    if req.Method = "POST" then options.set .POST (.bool true) else options
  let options := options.set .TCP_NODELAY (.bool true)
  if req.ProtoMajor > 1 then .error "only HTTP/1.x is supported"
  else
    match req.ProtoMinor with
    | 0 => .ok (options.set .HTTP_VERSION HTTP_VERSION_1_0)
    | 1 => .ok (options.set .HTTP_VERSION HTTP_VERSION_1_1)
    | _ => .error "unknown minor http version"

/-- The loop `for key, value := range options` of `configure`, over the entries
in the order visited. -/
def setoptAll (E : Env) (c : CURL) : List (Opt × OptValue) → World → Option error × World
  | [], w => (none, w)
  | (key, value) :: rest, w =>
    match E.Setopt c key value with
    | some err => (some err, w.record (.Setopt c key value))
    | none => setoptAll E c rest (w.record (.Setopt c key value))

/-- The function `configure`. -/
def configure (E : Env) (c : CURL) (req : Request) (w : World) : Option error × World :=
  match configureOptions E req with
  | .error err => (some err, w)
  | .ok options => setoptAll E c (E.rangeOptions options) w

/-- The default hook `postConfigure`. -/
def postConfigure : PostConfigure := fun _ _ => ([], none)

/-- The method `Transport.getPostConfigure`. -/
def Transport.getPostConfigure (t : Transport) : CurlTransport.PostConfigure :=
  match t.PostConfigure with
  | some f => f
  | none => postConfigure

/-- The slice `headers` of `RoundTrip` when it is passed to `Setopt`. -/
def buildHeaders (E : Env) (req : Request) : List String :=
  let headers : List String := List.replicate (req.Header.length + 1) ""
  let headers := headers ++
    (E.rangeHeader req.Header).map (fun kv => kv.1 ++ ": " ++ String.intercalate "," kv.2)
  if req.ContentLength > 0 then
    headers ++ ["Content-Length: " ++ toString req.ContentLength]
  else headers

/-- The variables the three callbacks of `RoundTrip` share, and the number of
`Read` calls made on the body so far. -/
structure Transfer where
  headerBuffer : List Byte
  bodyBuffer : List Byte
  callbackErr : Option error
  reads : Nat
deriving DecidableEq, Repr

/-- The function `writePayload`, for a buffer of `len` bytes. -/
def writePayload (len : Nat) (payload : Reader) (k : Nat) : Nat × Option error :=
  payload.Read k len

/-- The closure `readFunction`: its return value and the variables after it. -/
def readFunction (payload : Reader) (len : Nat) (s : Transfer) : Nat × Transfer :=
  let r := writePayload len payload s.reads
  let s := { s with reads := s.reads + 1 }
  if r.2 ≠ none ∧ r.1 > 0 then (r.1, { s with callbackErr := r.2 })
  else (r.1, s)

/-- The closure `writeFunction`. -/
def writeFunction (response : List Byte) (s : Transfer) : Bool × Transfer :=
  match readBody Buffer response s.bodyBuffer with
  | (body, some err) => (true, { s with bodyBuffer := body, callbackErr := some err })
  | (body, none) => (true, { s with bodyBuffer := body })

/-- The closure `headerFunction`. -/
def headerFunction (responseHeaders : List Byte) (s : Transfer) : Bool × Transfer :=
  match readHeader Buffer Buffer responseHeaders s.headerBuffer s.bodyBuffer with
  | (header, body, some err) =>
    (true, { s with headerBuffer := header, bodyBuffer := body, callbackErr := some err })
  | (header, body, none) =>
    (true, { s with headerBuffer := header, bodyBuffer := body })

/-- One callback made by the engine. The read callback is registered only when
the request has a body. -/
def runCallback (req : Request) (s : Transfer) : Callback → Transfer
  | .read len =>
    match req.Body with
    | some payload => (readFunction payload len s).2
    | none => s
  | .write chunk => (writeFunction chunk s).2
  | .header chunk => (headerFunction chunk s).2

/-- The variables after every callback of one `Perform`. -/
def runCallbacks (req : Request) (script : List Callback) : Transfer :=
  script.foldl (runCallback req) ⟨[], [], none, 0⟩

/-- The part of `RoundTrip` after the two `defer` statements, up to its return. -/
def roundTripBody (E : Env) (t : Transport) (easy : CURL) (req : Request) (w : World) :
    Option Response × Option error × World :=
  let headers := buildHeaders E req
  let w := w.record (.Setopt easy .HTTPHEADER (.strs headers))
  match E.Setopt easy .HTTPHEADER (.strs headers) with
  | some err => (none, some err, w)
  | none =>
    let w :=
      if req.Body.isSome then w.record (.Setopt easy .READFUNCTION (.func "readFunction"))
      else w
    let w := w.record (.Setopt easy .WRITEFUNCTION (.func "writeFunction"))
    let w := w.record (.Setopt easy .HEADERFUNCTION (.func "headerFunction"))
    let w := w.record (.PostConfigure easy (t.getPostConfigure easy req).1)
    let w := w.record (.Perform easy)
    let s := runCallbacks req (E.Perform easy req).1
    match (E.Perform easy req).2 with
    | some err => (none, some err, w)
    | none =>
      match s.callbackErr with
      | some err => (none, some err, w)
      | none =>
        let r := E.ReadResponse (s.headerBuffer ++ s.bodyBuffer) req
        (r.1, r.2, w)

/-- What `RoundTrip` returns, and the pool and the world after it. -/
structure Outcome where
  res : Option Response
  err : Option error
  pool : Option FinalizingPool
  world : World

/-- The method `Transport.RoundTrip`. The deferred `easy.Reset()` and
`curlPool.Put(easy)` run, in that order, when the part after them returns. -/
def RoundTrip (E : Env) (t : Transport) (req : Request) (w : World) : Outcome :=
  match t.Pool with
  | none => ⟨none, some "transport FinalizingPool is not initialized", none, w⟩
  | some curlPool =>
    let g := curlPool.Get E w
    let easy := g.1
    let c := configure E easy req g.2.2
    match c.1 with
    | some err => ⟨none, some err, some g.2.1, c.2⟩
    | none =>
      let r := roundTripBody E t easy req c.2
      let w := r.2.2.record (.Reset easy)
      let p := g.2.1.Put easy w
      ⟨r.1, r.2.1, some p.1, p.2⟩

/-! ## Observations and sample collaborators -/

/-- The events recorded between the world `w` and the later world `w1`. -/
def newEvents (w w1 : World) : List Event := w1.log.drop w.log.length

/-- Whether an event is a handle reset or a release to the pool. -/
def Event.isResetOrPut : Event → Bool
  | .Reset _ => true
  | .Put _ => true
  | _ => false

/-- `Put` on each handle of `hs`, in order. -/
def putAll (p : FinalizingPool) (hs : List CURL) (w : World) : FinalizingPool × World :=
  hs.foldl (fun pw h => pw.1.Put h pw.2) (p, w)

/-- `Get` called `n` times: the handles returned, in order, and the pool and
world after the last call. -/
def getN (E : Env) : Nat → FinalizingPool → World → List CURL × FinalizingPool × World
  | 0, p, w => ([], p, w)
  | n + 1, p, w =>
    let g := p.Get E w
    let r := getN E n g.2.1 g.2.2
    (g.1 :: r.1, r.2.1, r.2.2)

/-- Collaborators that never fail: maps are visited in insertion order, the
pool hands out its oldest item, the engine makes no callback, and the response
parser returns status 200 with the bytes it was given. -/
def plainEnv : Env where
  CURL_DEBUG := ""
  ToUpper := String.toUpper
  rangeOptions := fun m => m
  rangeOptions_perm := fun m => List.Perm.refl m
  rangeHeader := fun m => m
  rangeHeader_perm := fun m => List.Perm.refl m
  poolPick := fun _ => 0
  Setopt := fun _ _ _ => none
  Perform := fun _ _ => ([], none)
  ReadResponse := fun b _ => (some ⟨200, b⟩, none)

/-- A GET request without headers or body, with the given protocol version. -/
def getRequest (major minor : Int) : Request where
  Method := "GET"
  URL := "http://localhost:10000"
  Header := []
  Body := none
  ProtoMajor := major
  ProtoMinor := minor
  ContentLength := 0

/-- The world before any handle exists. -/
def World.init : World := { next := 0, log := [] }

/-- A request with method "put" without headers or body. -/
def putRequest : Request := { getRequest 1 1 with Method := "put" }

/-- Collaborators that never fail except that `Perform` cannot connect. -/
def unreachableEnv : Env :=
  { plainEnv with Perform := fun _ _ => ([], some "Couldn't connect to server") }

/-- A POST request with one header of two values and a declared length of 5. -/
def headerRequest : Request :=
  { getRequest 1 1 with Method := "POST", Header := [("Accept", ["a", "b"])], ContentLength := 5 }

/-- A body whose first `Read` delivers 3 bytes together with `io.EOF`. -/
def eofReader : Reader := ⟨fun k _ => if k = 0 then (3, some EOF) else (0, some EOF)⟩

/-- A POST request whose body is `eofReader`. -/
def bodyRequest : Request :=
  { getRequest 1 1 with Method := "POST", Body := some eofReader, ContentLength := 3 }

/-- Collaborators that never fail, with an engine that asks for the body once
with a buffer of 16 bytes. -/
def readingEnv : Env := { plainEnv with Perform := fun _ _ => ([.read 16], none) }

/-- Collaborators whose engine asks for the body once and then fails. -/
def failingEnv : Env :=
  { plainEnv with Perform := fun _ _ => ([.read 16], some "Couldn't connect to server") }

/-- The lines of a chunk as the specification splits them, before the carriage
return is dropped: each ends at a line feed, and a non-empty rest after the last
line feed is a line too. `cur` holds (reversed) the current line so far. -/
def rawLinesFrom (cur : List Byte) : List Byte → List (List Byte)
  | [] => if cur.isEmpty then [] else [cur.reverse]
  | b :: rest =>
    if b = 10 then cur.reverse :: rawLinesFrom [] rest
    else rawLinesFrom (b :: cur) rest

/-- The raw lines of a chunk. -/
def rawLines (chunk : List Byte) : List (List Byte) := rawLinesFrom [] chunk

/-- The lines of a chunk: its raw lines, each without a terminal carriage return. -/
def lines (chunk : List Byte) : List (List Byte) := (rawLines chunk).map dropCR

/-- Every line followed by a line feed, concatenated. -/
def joinLines : List (List Byte) → List Byte
  | [] => []
  | l :: rest => l ++ 10 :: joinLines rest

/-- A header line of `MaxScanTokenSize` (65536) letters `a` and a line feed. -/
def longLine : List Byte := List.replicate MaxScanTokenSize 97 ++ [10]

/-- A chunk with a provisional and a final response. -/
def continueChunk : List Byte :=
  [72, 84, 84, 80, 47, 49, 46, 49, 32, 49, 48, 48, 13, 10, 13, 10,
   72, 84, 84, 80, 47, 49, 46, 49, 32, 50, 48, 48, 13, 10, 88, 58, 49, 13, 10]

/-! ## Lemmas on maps and on the set-option loop -/

theorem GoMap.mem_set {κ ν : Type} [DecidableEq κ] (m : GoMap κ ν) (k k1 : κ) (v v1 : ν) :
    (k1, v1) ∈ m.set k v ↔ (k1 ≠ k ∧ (k1, v1) ∈ m) ∨ (k1 = k ∧ v1 = v) := by
  unfold GoMap.set
  simp only [List.mem_append, List.mem_filter, List.mem_singleton, Prod.mk.injEq,
    decide_eq_true_eq]
  constructor
  · rintro (⟨h1, h2⟩ | h)
    · exact Or.inl ⟨h2, h1⟩
    · exact Or.inr h
  · rintro (⟨h1, h2⟩ | h)
    · exact Or.inl ⟨h2, h1⟩
    · exact Or.inr h

theorem newEvents_of_log_eq {w w1 : World} {evs : List Event}
    (h : w1.log = w.log ++ evs) : newEvents w w1 = evs := by
  unfold newEvents
  rw [h, List.drop_left]

theorem setoptAll_log (E : Env) (c : CURL) (entries : List (Opt × OptValue)) (w : World) :
    ∃ called : List (Opt × OptValue), called <+: entries ∧
      (setoptAll E c entries w).2.log
        = w.log ++ called.map (fun kv => Event.Setopt c kv.1 kv.2) ∧
      (setoptAll E c entries w).2.next = w.next ∧
      ((setoptAll E c entries w).1 = none → called = entries) := by
  induction entries generalizing w with
  | nil => exact ⟨[], List.prefix_refl _, by simp [setoptAll], rfl, fun _ => rfl⟩
  | cons kv rest ih =>
    obtain ⟨key, value⟩ := kv
    cases hs : E.Setopt c key value with
    | some err =>
      refine ⟨[(key, value)], ?_, ?_, ?_, ?_⟩
      · exact List.prefix_iff_eq_append.mpr (by simp)
      · simp [setoptAll, hs, World.record]
      · simp [setoptAll, hs, World.record]
      · simp [setoptAll, hs]
    | none =>
      obtain ⟨called, hp, hl, hn, hall⟩ := ih (w.record (.Setopt c key value))
      refine ⟨(key, value) :: called, ?_, ?_, ?_, ?_⟩
      · obtain ⟨t, ht⟩ := hp
        exact ⟨t, by simp [← ht]⟩
      · simp only [setoptAll, hs]
        rw [hl]
        simp [World.record]
      · simp only [setoptAll, hs]
        rw [hn]
        rfl
      · intro h
        simp only [setoptAll, hs] at h
        rw [hall h]

/-! ## configure -/

theorem configureOptions_mem (E : Env) (req : Request) (m : GoMap Opt OptValue)
    (hm : configureOptions E req = .ok m) (k : Opt) (v : OptValue) :
    (k, v) ∈ m ↔
      (k = .URL ∧ v = .str req.URL) ∨
      (k = .COOKIESESSION ∧ v = .bool true) ∨
      (k = .VERBOSE ∧ v = .bool (decide (E.CURL_DEBUG = "1"))) ∨
      (k = .MAXREDIRS ∧ v = .int 20) ∨
      (k = .CUSTOMREQUEST ∧ req.Method ≠ "GET" ∧ req.Method ≠ "POST" ∧
        v = .str (E.ToUpper req.Method)) ∨
      (k = .POST ∧ req.Method = "POST" ∧ v = .bool true) ∨
      (k = .TCP_NODELAY ∧ v = .bool true) ∨
      (k = .HTTP_VERSION ∧
        ((req.ProtoMinor = 0 ∧ v = HTTP_VERSION_1_0) ∨
         (req.ProtoMinor = 1 ∧ v = HTTP_VERSION_1_1))) := by
  unfold configureOptions at hm
  simp only at hm
  split at hm
  · cases hm
  · split at hm
    · next hminor =>
      cases hm
      by_cases hg : req.Method = "GET" <;> by_cases hp : req.Method = "POST" <;>
        cases k <;> simp [GoMap.mem_set, hg, hp, hminor]
    · next hminor =>
      cases hm
      by_cases hg : req.Method = "GET" <;> by_cases hp : req.Method = "POST" <;>
        cases k <;> simp [GoMap.mem_set, hg, hp, hminor]
    · cases hm

theorem configureOptions_major (E : Env) (req : Request) (h : 1 < req.ProtoMajor) :
    configureOptions E req = .error "only HTTP/1.x is supported" := by
  unfold configureOptions
  simp only
  rw [if_pos (by simpa using h)]

theorem configureOptions_minor (E : Env) (req : Request) (h : req.ProtoMajor ≤ 1)
    (h0 : req.ProtoMinor ≠ 0) (h1 : req.ProtoMinor ≠ 1) :
    configureOptions E req = .error "unknown minor http version" := by
  unfold configureOptions
  simp only
  rw [if_neg (by simpa using h)]

theorem configureOptions_ok (E : Env) (req : Request) (h : req.ProtoMajor ≤ 1)
    (hminor : req.ProtoMinor = 0 ∨ req.ProtoMinor = 1) :
    ∃ m, configureOptions E req = .ok m := by
  unfold configureOptions
  simp only
  rw [if_neg (by simpa using h)]
  rcases hminor with hm | hm <;> rw [hm] <;> exact ⟨_, rfl⟩

theorem mem_setoptEvents (c : CURL) (called : List (Opt × OptValue)) (k : Opt) (v : OptValue) :
    Event.Setopt c k v ∈ called.map (fun kv => Event.Setopt c kv.1 kv.2) ↔ (k, v) ∈ called := by
  simp only [List.mem_map, Event.Setopt.injEq, true_and]
  constructor
  · rintro ⟨⟨k1, v1⟩, hmem, hk, hv⟩
    simp only at hk hv
    rw [← hk, ← hv]
    exact hmem
  · intro h
    exact ⟨(k, v), h, rfl, rfl⟩

theorem configure_log (E : Env) (c : CURL) (req : Request) (w : World)
    (m : GoMap Opt OptValue) (hm : configureOptions E req = .ok m) :
    ∃ called : List (Opt × OptValue), called <+: E.rangeOptions m ∧
      (configure E c req w).2.log = w.log ++ called.map (fun kv => Event.Setopt c kv.1 kv.2) ∧
      (configure E c req w).2.next = w.next ∧
      ((configure E c req w).1 = none → called = E.rangeOptions m) := by
  unfold configure
  rw [hm]
  exact setoptAll_log E c (E.rangeOptions m) w

/-- Every set-option call `configure` makes sets an entry of its `options` map,
and when `configure` returns nil every entry of the map was set. -/
theorem configure_calls (E : Env) (c : CURL) (req : Request) (w : World)
    (m : GoMap Opt OptValue) (hm : configureOptions E req = .ok m) (k : Opt) (v : OptValue) :
    (Event.Setopt c k v ∈ newEvents w (configure E c req w).2 → (k, v) ∈ m) ∧
    ((configure E c req w).1 = none →
      (Event.Setopt c k v ∈ newEvents w (configure E c req w).2 ↔ (k, v) ∈ m)) := by
  obtain ⟨called, hp, hl, _, hall⟩ := configure_log E c req w m hm
  rw [newEvents_of_log_eq hl, mem_setoptEvents]
  constructor
  · intro h
    exact (E.rangeOptions_perm m).mem_iff.mp (hp.subset h)
  · intro hnone
    rw [hall hnone]
    exact (E.rangeOptions_perm m).mem_iff

theorem configure_error (E : Env) (c : CURL) (req : Request) (w : World) (err : error)
    (h : configureOptions E req = .error err) : configure E c req w = (some err, w) := by
  unfold configure
  rw [h]

/-- C2 (amended): a request whose protocol major version is greater than 1 is
rejected with the "only HTTP/1.x is supported" error, whatever its minor
version, method and URL, and no set-option call is made. -/
theorem configure_rejects_major_above_one (E : Env) (c : CURL) (req : Request) (w : World)
    (h : 1 < req.ProtoMajor) :
    configure E c req w = (some "only HTTP/1.x is supported", w) :=
  configure_error E c req w _ (configureOptions_major E req h)

theorem configure_rejects_major_above_one_witness :
    (1 : Int) < (getRequest 2 0).ProtoMajor ∧
    configure plainEnv ⟨0⟩ (getRequest 2 0) World.init
      = (some "only HTTP/1.x is supported", World.init) :=
  ⟨by decide, configure_rejects_major_above_one plainEnv ⟨0⟩ (getRequest 2 0) World.init
    (by decide)⟩

/-- C2 (counterexample): a request with protocol major version 0 and minor
version 0 is not rejected: `configure` returns nil and sets HTTP/1.0. -/
theorem configure_accepts_major_zero :
    (getRequest 0 0).ProtoMajor ≠ 1 ∧
    (configure plainEnv ⟨0⟩ (getRequest 0 0) World.init).1 = none ∧
    Event.Setopt ⟨0⟩ .HTTP_VERSION HTTP_VERSION_1_0 ∈
      (configure plainEnv ⟨0⟩ (getRequest 0 0) World.init).2.log := by
  decide

/-- C3: with major version 1, minor version 0 puts HTTP/1.0 and minor version 1
puts HTTP/1.1 in the options table, every HTTP-version set-option call made on
the handle carries that value, and the call is made whenever `configure` returns
nil; any other minor version returns "unknown minor http version" and leaves the
world as it was, so no set-option call is made. -/
theorem configure_minor_version (E : Env) (c : CURL) (req : Request) (w : World)
    (hmajor : req.ProtoMajor = 1) :
    (req.ProtoMinor = 0 →
      (∃ m, configureOptions E req = .ok m ∧
        ∀ v, (Opt.HTTP_VERSION, v) ∈ m ↔ v = HTTP_VERSION_1_0) ∧
      (∀ v, Event.Setopt c .HTTP_VERSION v ∈ newEvents w (configure E c req w).2 →
        v = HTTP_VERSION_1_0) ∧
      ((configure E c req w).1 = none →
        Event.Setopt c .HTTP_VERSION HTTP_VERSION_1_0 ∈
          newEvents w (configure E c req w).2)) ∧
    (req.ProtoMinor = 1 →
      (∃ m, configureOptions E req = .ok m ∧
        ∀ v, (Opt.HTTP_VERSION, v) ∈ m ↔ v = HTTP_VERSION_1_1) ∧
      (∀ v, Event.Setopt c .HTTP_VERSION v ∈ newEvents w (configure E c req w).2 →
        v = HTTP_VERSION_1_1) ∧
      ((configure E c req w).1 = none →
        Event.Setopt c .HTTP_VERSION HTTP_VERSION_1_1 ∈
          newEvents w (configure E c req w).2)) ∧
    (req.ProtoMinor ≠ 0 → req.ProtoMinor ≠ 1 →
      configure E c req w = (some "unknown minor http version", w) ∧
      newEvents w (configure E c req w).2 = []) := by
  have hle : req.ProtoMajor ≤ 1 := by rw [hmajor]
  refine ⟨?_, ?_, ?_⟩
  · intro h0
    obtain ⟨m, hm⟩ := configureOptions_ok E req hle (Or.inl h0)
    have hv : ∀ v, (Opt.HTTP_VERSION, v) ∈ m ↔ v = HTTP_VERSION_1_0 := by
      intro v
      rw [configureOptions_mem E req m hm]
      simp [h0]
    refine ⟨⟨m, hm, hv⟩, ?_, ?_⟩
    · intro v hmem
      exact (hv v).mp ((configure_calls E c req w m hm _ v).1 hmem)
    · intro hnone
      exact ((configure_calls E c req w m hm _ _).2 hnone).mpr ((hv _).mpr rfl)
  · intro h1
    obtain ⟨m, hm⟩ := configureOptions_ok E req hle (Or.inr h1)
    have hv : ∀ v, (Opt.HTTP_VERSION, v) ∈ m ↔ v = HTTP_VERSION_1_1 := by
      intro v
      rw [configureOptions_mem E req m hm]
      simp [h1]
    refine ⟨⟨m, hm, hv⟩, ?_, ?_⟩
    · intro v hmem
      exact (hv v).mp ((configure_calls E c req w m hm _ v).1 hmem)
    · intro hnone
      exact ((configure_calls E c req w m hm _ _).2 hnone).mpr ((hv _).mpr rfl)
  · intro h0 h1
    have h := configure_error E c req w _ (configureOptions_minor E req hle h0 h1)
    refine ⟨h, ?_⟩
    rw [h]
    simp [newEvents]

theorem configure_minor_version_witness :
    (getRequest 1 1).ProtoMajor = 1 ∧
    Event.Setopt ⟨0⟩ .HTTP_VERSION HTTP_VERSION_1_1 ∈
      newEvents World.init (configure plainEnv ⟨0⟩ (getRequest 1 1) World.init).2 :=
  ⟨rfl, ((configure_minor_version plainEnv ⟨0⟩ (getRequest 1 1) World.init rfl).2.1 rfl).2.2
    (by decide)⟩

/-- C9: for a request whose protocol version `configure` accepts, the custom-method
override is in the options table, and is set on the handle when `configure`
returns nil, exactly when the method is neither "GET" nor "POST", with the
uppercased method as value; the POST flag likewise exactly when the method is
"POST", with value true; a "GET" request sets neither. No call for either option
is ever made outside these cases. -/
theorem configure_method (E : Env) (c : CURL) (req : Request) (w : World)
    (hmajor : req.ProtoMajor ≤ 1) (hminor : req.ProtoMinor = 0 ∨ req.ProtoMinor = 1) :
    (∃ m, configureOptions E req = .ok m ∧
      (∀ v, (Opt.CUSTOMREQUEST, v) ∈ m ↔
        (req.Method ≠ "GET" ∧ req.Method ≠ "POST" ∧ v = .str (E.ToUpper req.Method))) ∧
      (∀ v, (Opt.POST, v) ∈ m ↔ (req.Method = "POST" ∧ v = .bool true))) ∧
    (∀ v, Event.Setopt c .CUSTOMREQUEST v ∈ newEvents w (configure E c req w).2 →
      req.Method ≠ "GET" ∧ req.Method ≠ "POST" ∧ v = .str (E.ToUpper req.Method)) ∧
    (∀ v, Event.Setopt c .POST v ∈ newEvents w (configure E c req w).2 →
      req.Method = "POST" ∧ v = .bool true) ∧
    ((configure E c req w).1 = none →
      ((∃ v, Event.Setopt c .CUSTOMREQUEST v ∈ newEvents w (configure E c req w).2) ↔
        (req.Method ≠ "GET" ∧ req.Method ≠ "POST")) ∧
      ((∃ v, Event.Setopt c .POST v ∈ newEvents w (configure E c req w).2) ↔
        req.Method = "POST")) ∧
    (req.Method = "GET" → ∀ v,
      Event.Setopt c .CUSTOMREQUEST v ∉ newEvents w (configure E c req w).2 ∧
      Event.Setopt c .POST v ∉ newEvents w (configure E c req w).2) := by
  obtain ⟨m, hm⟩ := configureOptions_ok E req hmajor hminor
  have hcustom : ∀ v, (Opt.CUSTOMREQUEST, v) ∈ m ↔
      (req.Method ≠ "GET" ∧ req.Method ≠ "POST" ∧ v = .str (E.ToUpper req.Method)) := by
    intro v
    rw [configureOptions_mem E req m hm]
    simp
  have hpost : ∀ v, (Opt.POST, v) ∈ m ↔ (req.Method = "POST" ∧ v = .bool true) := by
    intro v
    rw [configureOptions_mem E req m hm]
    simp
  have h1 : ∀ v, Event.Setopt c .CUSTOMREQUEST v ∈ newEvents w (configure E c req w).2 →
      req.Method ≠ "GET" ∧ req.Method ≠ "POST" ∧ v = .str (E.ToUpper req.Method) :=
    fun v hmem => (hcustom v).mp ((configure_calls E c req w m hm _ v).1 hmem)
  have h2 : ∀ v, Event.Setopt c .POST v ∈ newEvents w (configure E c req w).2 →
      req.Method = "POST" ∧ v = .bool true :=
    fun v hmem => (hpost v).mp ((configure_calls E c req w m hm _ v).1 hmem)
  refine ⟨⟨m, hm, hcustom, hpost⟩, h1, h2, ?_, ?_⟩
  · intro hnone
    constructor
    · constructor
      · rintro ⟨v, hv⟩
        exact ⟨(h1 v hv).1, (h1 v hv).2.1⟩
      · rintro ⟨hg, hp⟩
        exact ⟨_, ((configure_calls E c req w m hm _ _).2 hnone).mpr
          ((hcustom _).mpr ⟨hg, hp, rfl⟩)⟩
    · constructor
      · rintro ⟨v, hv⟩
        exact (h2 v hv).1
      · intro hp
        exact ⟨_, ((configure_calls E c req w m hm _ _).2 hnone).mpr ((hpost _).mpr ⟨hp, rfl⟩)⟩
  · intro hget v
    constructor
    · intro hmem
      exact (h1 v hmem).1 hget
    · intro hmem
      have := (h2 v hmem).1
      rw [hget] at this
      exact absurd this (by decide)

theorem configure_method_witness :
    putRequest.ProtoMajor ≤ 1 ∧ (putRequest.ProtoMinor = 0 ∨ putRequest.ProtoMinor = 1) ∧
    ((∃ v, Event.Setopt ⟨0⟩ .CUSTOMREQUEST v ∈
        newEvents World.init (configure plainEnv ⟨0⟩ putRequest World.init).2) ↔
      (putRequest.Method ≠ "GET" ∧ putRequest.Method ≠ "POST")) :=
  ⟨by decide, by decide,
    ((configure_method plainEnv ⟨0⟩ putRequest World.init (by decide) (by decide)).2.2.2.1
      (by decide)).1⟩

/-! ## RoundTrip -/

theorem get_log (E : Env) (p : FinalizingPool) (w : World) :
    ∃ e, (p.Get E w).2.2.log = w.log ++ [e] ∧ e.isResetOrPut = false := by
  unfold FinalizingPool.Get
  split
  · exact ⟨_, rfl, rfl⟩
  · exact ⟨_, rfl, rfl⟩

theorem configure_log_ext (E : Env) (c : CURL) (req : Request) (w : World) :
    ∃ evs, (configure E c req w).2.log = w.log ++ evs ∧
      ∀ e ∈ evs, e.isResetOrPut = false := by
  cases hm : configureOptions E req with
  | error err =>
    rw [configure_error E c req w err hm]
    exact ⟨[], by simp, by simp⟩
  | ok m =>
    obtain ⟨called, _, hl, _, _⟩ := configure_log E c req w m hm
    refine ⟨_, hl, ?_⟩
    intro e he
    simp only [List.mem_map] at he
    obtain ⟨kv, _, rfl⟩ := he
    rfl

theorem roundTripBody_log (E : Env) (t : Transport) (easy : CURL) (req : Request)
    (w : World) :
    ∃ evs, (roundTripBody E t easy req w).2.2.log = w.log ++ evs ∧
      ∀ e ∈ evs, e.isResetOrPut = false := by
  unfold roundTripBody
  simp only
  split
  · exact ⟨_, rfl, by simp [Event.isResetOrPut]⟩
  · cases hb : req.Body.isSome <;> split <;> (try split) <;>
      simp only [World.record, List.append_assoc, Bool.false_eq_true, if_false, if_true] <;>
      exact ⟨_, rfl, by simp [Event.isResetOrPut]⟩

theorem RoundTrip_configured (E : Env) (t : Transport) (p : FinalizingPool) (req : Request)
    (w : World) (hpool : t.Pool = some p)
    (hcfg : (configure E (p.Get E w).1 req (p.Get E w).2.2).1 = none) :
    RoundTrip E t req w =
      ⟨(roundTripBody E t (p.Get E w).1 req (configure E (p.Get E w).1 req (p.Get E w).2.2).2).1,
       (roundTripBody E t (p.Get E w).1 req (configure E (p.Get E w).1 req (p.Get E w).2.2).2).2.1,
       some ⟨(p.Get E w).2.1.pool ++ [⟨(p.Get E w).1⟩]⟩,
       (((roundTripBody E t (p.Get E w).1 req
          (configure E (p.Get E w).1 req (p.Get E w).2.2).2).2.2.record
            (.Reset (p.Get E w).1)).record (.SetFinalizer (p.Get E w).1 true)).record
              (.Put (p.Get E w).1)⟩ := by
  unfold RoundTrip
  rw [hpool]
  simp only [hcfg]
  rfl

theorem RoundTrip_configure_failed (E : Env) (t : Transport) (p : FinalizingPool)
    (req : Request) (w : World) (err : error) (hpool : t.Pool = some p)
    (hcfg : (configure E (p.Get E w).1 req (p.Get E w).2.2).1 = some err) :
    RoundTrip E t req w =
      ⟨none, some err, some (p.Get E w).2.1,
        (configure E (p.Get E w).1 req (p.Get E w).2.2).2⟩ := by
  unfold RoundTrip
  rw [hpool]
  simp only [hcfg]

theorem roundTripBody_perform_error (E : Env) (t : Transport) (easy : CURL) (req : Request)
    (w : World) (h : (E.Perform easy req).2 ≠ none) :
    (roundTripBody E t easy req w).2.1 ≠ none := by
  unfold roundTripBody
  simp only
  split
  · simp
  · split
    · simp
    · next hn => exact absurd hn h

theorem roundTripBody_result (E : Env) (t : Transport) (easy : CURL) (req : Request)
    (w : World) (hhdr : E.Setopt easy .HTTPHEADER (.strs (buildHeaders E req)) = none) :
    ((roundTripBody E t easy req w).1, (roundTripBody E t easy req w).2.1) =
      match (E.Perform easy req).2 with
      | some err => (none, some err)
      | none =>
        match (runCallbacks req (E.Perform easy req).1).callbackErr with
        | some err => (none, some err)
        | none =>
          E.ReadResponse
            ((runCallbacks req (E.Perform easy req).1).headerBuffer ++
              (runCallbacks req (E.Perform easy req).1).bodyBuffer) req := by
  cases hp : (E.Perform easy req).2 with
  | some err => simp [roundTripBody, hhdr, hp]
  | none =>
    cases hc : (runCallbacks req (E.Perform easy req).1).callbackErr with
    | some err => simp [roundTripBody, hhdr, hp, hc]
    | none => simp [roundTripBody, hhdr, hp, hc]

/-- C4 (failing input): on a fresh transport, a request with protocol major
version 2 makes `RoundTrip` create a handle, return the configure error and
leave the pool's idle storage empty; and with one idle handle in the pool, the
same request takes that handle out and leaves the storage empty. No `Put` is
recorded in either run. -/
theorem roundTrip_configure_error_leaks_handle :
    (RoundTrip plainEnv New (getRequest 2 0) World.init).err
      = some "only HTTP/1.x is supported" ∧
    (RoundTrip plainEnv New (getRequest 2 0) World.init).pool = some ⟨[]⟩ ∧
    (RoundTrip plainEnv New (getRequest 2 0) World.init).world.log = [.EasyInit ⟨0⟩] ∧
    (RoundTrip plainEnv ⟨some ⟨[⟨⟨7⟩⟩]⟩, none⟩ (getRequest 2 0) ⟨8, []⟩).err
      = some "only HTTP/1.x is supported" ∧
    (RoundTrip plainEnv ⟨some ⟨[⟨⟨7⟩⟩]⟩, none⟩ (getRequest 2 0) ⟨8, []⟩).pool = some ⟨[]⟩ ∧
    (RoundTrip plainEnv ⟨some ⟨[⟨⟨7⟩⟩]⟩, none⟩ (getRequest 2 0) ⟨8, []⟩).world.log
      = [.SetFinalizer ⟨7⟩ false] := by
  decide

/-- C5: once `configure` has returned nil, the events of one `RoundTrip` contain
exactly one reset and one release, of the acquired handle, the reset first; the
handle's box is added to the idle storage; and when the pool was empty and
`Perform` fails (an unreachable address), `RoundTrip` returns a non-nil error
and the idle storage holds exactly that one handle. -/
theorem roundTrip_resets_then_releases (E : Env) (t : Transport) (p : FinalizingPool)
    (req : Request) (w : World) (hpool : t.Pool = some p)
    (hcfg : (configure E (p.Get E w).1 req (p.Get E w).2.2).1 = none) :
    (newEvents w (RoundTrip E t req w).world).filter Event.isResetOrPut
      = [.Reset (p.Get E w).1, .Put (p.Get E w).1] ∧
    (RoundTrip E t req w).pool = some ⟨(p.Get E w).2.1.pool ++ [⟨(p.Get E w).1⟩]⟩ ∧
    (p.pool = [] → (E.Perform (p.Get E w).1 req).2 ≠ none →
      (RoundTrip E t req w).err ≠ none ∧
      ∃ q, (RoundTrip E t req w).pool = some q ∧ q.pool = [⟨(p.Get E w).1⟩] ∧
        q.pool.length = 1) := by
  rw [RoundTrip_configured E t p req w hpool hcfg]
  refine ⟨?_, rfl, ?_⟩
  · obtain ⟨e1, h1, hf1⟩ := get_log E p w
    obtain ⟨ev2, h2, hf2⟩ := configure_log_ext E (p.Get E w).1 req (p.Get E w).2.2
    obtain ⟨ev3, h3, hf3⟩ := roundTripBody_log E t (p.Get E w).1 req
      (configure E (p.Get E w).1 req (p.Get E w).2.2).2
    have hlog : ((((roundTripBody E t (p.Get E w).1 req
        (configure E (p.Get E w).1 req (p.Get E w).2.2).2).2.2.record
          (.Reset (p.Get E w).1)).record (.SetFinalizer (p.Get E w).1 true)).record
            (.Put (p.Get E w).1)).log
        = w.log ++ (e1 :: (ev2 ++ (ev3 ++
            [.Reset (p.Get E w).1, .SetFinalizer (p.Get E w).1 true, .Put (p.Get E w).1]))) := by
      simp only [World.record, h3, h2, h1, List.append_assoc, List.singleton_append,
        List.cons_append, List.nil_append]
    rw [newEvents_of_log_eq hlog]
    have hn2 : ev2.filter Event.isResetOrPut = [] :=
      List.filter_eq_nil_iff.mpr (fun e he => by simp [hf2 e he])
    have hn3 : ev3.filter Event.isResetOrPut = [] :=
      List.filter_eq_nil_iff.mpr (fun e he => by simp [hf3 e he])
    rw [List.filter_cons_of_neg (by simp [hf1]), List.filter_append, hn2,
      List.filter_append, hn3]
    rfl
  · intro hempty hperf
    refine ⟨roundTripBody_perform_error E t _ req _ hperf, _, rfl, ?_, ?_⟩
    · have hg : (p.Get E w).2.1.pool = [] := by
        unfold FinalizingPool.Get syncPoolGet
        simp [hempty]
      simp [hg]
    · have hg : (p.Get E w).2.1.pool = [] := by
        unfold FinalizingPool.Get syncPoolGet
        simp [hempty]
      simp [hg]

theorem roundTrip_resets_then_releases_witness :
    New.Pool = some ⟨[]⟩ ∧
    (configure unreachableEnv ((⟨[]⟩ : FinalizingPool).Get unreachableEnv World.init).1
      (getRequest 1 1) ((⟨[]⟩ : FinalizingPool).Get unreachableEnv World.init).2.2).1 = none ∧
    (newEvents World.init (RoundTrip unreachableEnv New (getRequest 1 1) World.init).world).filter
        Event.isResetOrPut
      = [.Reset ((⟨[]⟩ : FinalizingPool).Get unreachableEnv World.init).1,
         .Put ((⟨[]⟩ : FinalizingPool).Get unreachableEnv World.init).1] :=
  ⟨rfl, by decide,
    (roundTrip_resets_then_releases unreachableEnv New ⟨[]⟩ (getRequest 1 1) World.init rfl
      (by decide)).1⟩

/-- C6: when `Perform` is reached, a `Perform` error is returned (with a nil
response) whether or not a callback error was recorded; with no `Perform` error
a recorded callback error is returned (with a nil response); and only with
neither is the result that of parsing the header buffer followed by the body
buffer. -/
theorem roundTrip_error_priority (E : Env) (t : Transport) (p : FinalizingPool)
    (req : Request) (w : World) (hpool : t.Pool = some p)
    (hcfg : (configure E (p.Get E w).1 req (p.Get E w).2.2).1 = none)
    (hhdr : E.Setopt (p.Get E w).1 .HTTPHEADER (.strs (buildHeaders E req)) = none) :
    (∀ e, (E.Perform (p.Get E w).1 req).2 = some e →
      (RoundTrip E t req w).res = none ∧ (RoundTrip E t req w).err = some e) ∧
    ((E.Perform (p.Get E w).1 req).2 = none →
      ∀ e, (runCallbacks req (E.Perform (p.Get E w).1 req).1).callbackErr = some e →
        (RoundTrip E t req w).res = none ∧ (RoundTrip E t req w).err = some e) ∧
    ((E.Perform (p.Get E w).1 req).2 = none →
      (runCallbacks req (E.Perform (p.Get E w).1 req).1).callbackErr = none →
        ((RoundTrip E t req w).res, (RoundTrip E t req w).err) =
          E.ReadResponse
            ((runCallbacks req (E.Perform (p.Get E w).1 req).1).headerBuffer ++
              (runCallbacks req (E.Perform (p.Get E w).1 req).1).bodyBuffer) req) := by
  rw [RoundTrip_configured E t p req w hpool hcfg]
  have hres := roundTripBody_result E t (p.Get E w).1 req
    (configure E (p.Get E w).1 req (p.Get E w).2.2).2 hhdr
  simp only
  refine ⟨?_, ?_, ?_⟩
  · intro e he
    rw [he] at hres
    exact ⟨congrArg Prod.fst hres, congrArg Prod.snd hres⟩
  · intro hn e he
    rw [hn, he] at hres
    exact ⟨congrArg Prod.fst hres, congrArg Prod.snd hres⟩
  · intro hn he
    rw [hn, he] at hres
    exact hres

theorem readHeaderLines_Buffer_err (lines : List (List Byte)) (header body : List Byte) :
    (readHeaderLines Buffer Buffer lines header body).2.2 = none := by
  induction lines generalizing header body with
  | nil => rfl
  | cons line rest ih =>
    simp only [readHeaderLines, Buffer]
    exact ih _ _

theorem headerFunction_callbackErr (chunk : List Byte) (s : Transfer) :
    (headerFunction chunk s).2.callbackErr = s.callbackErr ∧
    (headerFunction chunk s).2.reads = s.reads := by
  have h := readHeaderLines_Buffer_err (scanLines chunk) s.headerBuffer s.bodyBuffer
  unfold headerFunction readHeader
  split
  · next heq => rw [heq] at h; cases h
  · exact ⟨rfl, rfl⟩

theorem writeFunction_callbackErr (chunk : List Byte) (s : Transfer) :
    (writeFunction chunk s).2.callbackErr = s.callbackErr ∧
    (writeFunction chunk s).2.reads = s.reads := by
  unfold writeFunction readBody Buffer
  exact ⟨rfl, rfl⟩

theorem runCallback_keeps_error (req : Request) (s : Transfer) (cb : Callback)
    (h : s.callbackErr ≠ none) : (runCallback req s cb).callbackErr ≠ none := by
  cases cb with
  | read len =>
    cases hb : req.Body with
    | none => simpa [runCallback, hb] using h
    | some payload =>
      simp only [runCallback, hb, readFunction]
      split
      · next hc => exact hc.1
      · exact h
  | write chunk =>
    simp only [runCallback]
    rw [(writeFunction_callbackErr chunk s).1]
    exact h
  | header chunk =>
    simp only [runCallback]
    rw [(headerFunction_callbackErr chunk s).1]
    exact h

theorem foldl_keeps_error (req : Request) (post : List Callback) (s : Transfer)
    (h : s.callbackErr ≠ none) : (post.foldl (runCallback req) s).callbackErr ≠ none := by
  induction post generalizing s with
  | nil => exact h
  | cons cb rest ih => exact ih _ (runCallback_keeps_error req s cb h)

theorem foldl_without_read (req : Request) (post : List Callback) (s : Transfer)
    (h : ∀ cb ∈ post, ∀ len, cb ≠ .read len) :
    (post.foldl (runCallback req) s).callbackErr = s.callbackErr := by
  induction post generalizing s with
  | nil => rfl
  | cons cb rest ih =>
    simp only [List.foldl_cons]
    rw [ih _ (fun cb1 h1 => h cb1 (List.mem_cons_of_mem _ h1))]
    cases cb with
    | read len => exact absurd rfl (h _ (List.mem_cons_self _ _) len)
    | write chunk => exact (writeFunction_callbackErr chunk s).1
    | header chunk => exact (headerFunction_callbackErr chunk s).1

theorem readFunction_records (payload : Reader) (len : Nat) (s : Transfer) (e : error)
    (he : (payload.Read s.reads len).2 = some e) (hn : 0 < (payload.Read s.reads len).1) :
    (readFunction payload len s).2.callbackErr = some e := by
  unfold readFunction writePayload
  simp only
  rw [if_pos ⟨by simp [he], hn⟩]
  exact he

/-- C10 (counterexample): a body whose first `Read` returns 3 bytes together
with `io.EOF` has that end-of-stream recorded as the callback error, and
`RoundTrip` returns it although `Perform` succeeded. -/
theorem eof_with_data_is_recorded :
    eofReader.Read 0 16 = (3, some EOF) ∧
    (readFunction eofReader 16 ⟨[], [], none, 0⟩).2.callbackErr = some EOF ∧
    (readingEnv.Perform ⟨0⟩ bodyRequest).2 = none ∧
    (RoundTrip readingEnv New bodyRequest World.init).res = none ∧
    (RoundTrip readingEnv New bodyRequest World.init).err = some EOF := by
  decide

/-- C10 (amended): in any `RoundTrip` that reaches `Perform`, each invocation of
the read callback makes one `Read` and returns its byte count `n`; any error
arriving with `n > 0`, end-of-stream included, is recorded, and if `Perform`
then succeeds `RoundTrip` returns no response and a non-nil error, which is that
error when no later read callback follows; an invocation with a nil error or
with `n = 0` leaves the recorded error as it was. -/
theorem read_callback (E : Env) (t : Transport) (p : FinalizingPool) (req : Request)
    (w : World) (payload : Reader) (pre post : List Callback) (len : Nat)
    (hpool : t.Pool = some p)
    (hcfg : (configure E (p.Get E w).1 req (p.Get E w).2.2).1 = none)
    (hhdr : E.Setopt (p.Get E w).1 .HTTPHEADER (.strs (buildHeaders E req)) = none)
    (hbody : req.Body = some payload)
    (hscript : (E.Perform (p.Get E w).1 req).1 = pre ++ .read len :: post) :
    (readFunction payload len (runCallbacks req pre)).1
      = (payload.Read (runCallbacks req pre).reads len).1 ∧
    (readFunction payload len (runCallbacks req pre)).2.reads
      = (runCallbacks req pre).reads + 1 ∧
    (∀ e, (payload.Read (runCallbacks req pre).reads len).2 = some e →
      0 < (payload.Read (runCallbacks req pre).reads len).1 →
      (readFunction payload len (runCallbacks req pre)).2.callbackErr = some e ∧
      ((E.Perform (p.Get E w).1 req).2 = none →
        (RoundTrip E t req w).res = none ∧ (RoundTrip E t req w).err ≠ none ∧
        ((∀ cb ∈ post, ∀ l, cb ≠ .read l) → (RoundTrip E t req w).err = some e))) ∧
    ((payload.Read (runCallbacks req pre).reads len).2 = none ∨
        (payload.Read (runCallbacks req pre).reads len).1 = 0 →
      (readFunction payload len (runCallbacks req pre)).2.callbackErr
        = (runCallbacks req pre).callbackErr) := by
  have hrun : runCallbacks req (pre ++ .read len :: post)
      = post.foldl (runCallback req) (readFunction payload len (runCallbacks req pre)).2 := by
    simp only [runCallbacks, List.foldl_append, List.foldl_cons, runCallback, hbody]
  refine ⟨?_, ?_, ?_, ?_⟩
  · unfold readFunction writePayload
    simp only
    split <;> rfl
  · unfold readFunction writePayload
    simp only
    split <;> rfl
  · intro e he hn
    have hrec := readFunction_records payload len (runCallbacks req pre) e he hn
    refine ⟨hrec, ?_⟩
    intro hperf
    have hres := roundTripBody_result E t (p.Get E w).1 req
      (configure E (p.Get E w).1 req (p.Get E w).2.2).2 hhdr
    rw [hperf, hscript, hrun] at hres
    rw [RoundTrip_configured E t p req w hpool hcfg]
    simp only
    have hsome : (post.foldl (runCallback req)
        (readFunction payload len (runCallbacks req pre)).2).callbackErr ≠ none :=
      foldl_keeps_error req post _ (by rw [hrec]; simp)
    cases hc : (post.foldl (runCallback req)
        (readFunction payload len (runCallbacks req pre)).2).callbackErr with
    | none => exact absurd hc hsome
    | some e1 =>
      rw [hc] at hres
      have h1 := congrArg Prod.fst hres
      have h2 := congrArg Prod.snd hres
      simp only at h1 h2
      refine ⟨h1, ?_, ?_⟩
      · rw [h2]
        simp
      · intro hpost
        rw [foldl_without_read req post _ hpost, hrec] at hc
        rw [h2, hc]
  · intro h
    unfold readFunction writePayload
    simp only
    rw [if_neg]
    rintro ⟨h1, h2⟩
    rcases h with h | h
    · exact h1 h
    · omega

theorem read_callback_witness :
    New.Pool = some ⟨[]⟩ ∧ bodyRequest.Body = some eofReader ∧
    (readingEnv.Perform ((⟨[]⟩ : FinalizingPool).Get readingEnv World.init).1 bodyRequest).1
      = [] ++ .read 16 :: [] ∧
    (RoundTrip readingEnv New bodyRequest World.init).err = some EOF :=
  ⟨rfl, rfl, rfl,
    ((((read_callback readingEnv New ⟨[]⟩ bodyRequest World.init eofReader [] [] 16 rfl
      (by decide) (by decide) rfl rfl).2.2.1 EOF rfl (by decide)).2 rfl).2.2
        (fun _ h => absurd h (List.not_mem_nil _)))⟩

theorem roundTrip_error_priority_witness :
    New.Pool = some ⟨[]⟩ ∧
    (failingEnv.Perform ⟨0⟩ bodyRequest).2 = some "Couldn't connect to server" ∧
    (runCallbacks bodyRequest (failingEnv.Perform ⟨0⟩ bodyRequest).1).callbackErr = some EOF ∧
    (RoundTrip failingEnv New bodyRequest World.init).res = none ∧
    (RoundTrip failingEnv New bodyRequest World.init).err
      = some "Couldn't connect to server" :=
  ⟨rfl, rfl, by decide,
    (roundTrip_error_priority failingEnv New ⟨[]⟩ bodyRequest World.init rfl (by decide)
      (by decide)).1 _ rfl⟩

/-- C8 (failing input): for a request with the single header `Accept: a,b` and
declared length 5 the list passed to the header-list option starts with two
empty strings, and for a request without headers and length it is one empty
string rather than the empty list. -/
theorem header_list_has_empty_entries :
    buildHeaders plainEnv headerRequest = ["", "", "Accept: a,b", "Content-Length: 5"] ∧
    Event.Setopt ⟨0⟩ .HTTPHEADER (.strs ["", "", "Accept: a,b", "Content-Length: 5"]) ∈
      (RoundTrip plainEnv New headerRequest World.init).world.log ∧
    buildHeaders plainEnv (getRequest 1 1) = [""] ∧
    Event.Setopt ⟨0⟩ .HTTPHEADER (.strs [""]) ∈
      (RoundTrip plainEnv New (getRequest 1 1) World.init).world.log := by
  decide

/-- The list `RoundTrip` passes to the header-list option: one empty string per
header name and one more, then one entry per header name in the order the map
is visited, then the content length when it is positive. -/
theorem buildHeaders_eq (E : Env) (req : Request) :
    ∃ entries : List (String × List String), entries.Perm req.Header ∧
      buildHeaders E req =
        List.replicate (req.Header.length + 1) "" ++
        entries.map (fun kv => kv.1 ++ ": " ++ String.intercalate "," kv.2) ++
        (if req.ContentLength > 0 then ["Content-Length: " ++ toString req.ContentLength]
         else []) := by
  refine ⟨E.rangeHeader req.Header, E.rangeHeader_perm _, ?_⟩
  unfold buildHeaders
  simp only
  split <;> simp

/-! ## readHeader -/

theorem scanFrom_eq_lines (chunk cur : List Byte)
    (hfit : ∀ l ∈ rawLinesFrom cur chunk, l.length < MaxScanTokenSize) :
    scanFrom cur chunk = (rawLinesFrom cur chunk).map dropCR := by
  induction chunk generalizing cur with
  | nil =>
    unfold scanFrom rawLinesFrom
    by_cases hc : cur.isEmpty
    · simp [hc]
    · simp only [hc, Bool.false_eq_true, if_false, List.map_cons, List.map_nil]
      have := hfit cur.reverse (by simp [rawLinesFrom, hc])
      rw [List.length_reverse] at this
      rw [if_pos this]
  | cons b rest ih =>
    unfold scanFrom rawLinesFrom
    by_cases hb : b = 10
    · simp only [hb, if_true, List.map_cons]
      have := hfit cur.reverse (by simp [rawLinesFrom, hb])
      rw [List.length_reverse] at this
      rw [if_pos this, ih []]
      intro l hl
      exact hfit l (by simp [rawLinesFrom, hb, hl])
    · simp only [hb, if_false]
      exact ih (b :: cur) (fun l hl => hfit l (by simpa [rawLinesFrom, hb] using hl))

theorem scanLines_eq_lines (chunk : List Byte)
    (hfit : ∀ l ∈ rawLines chunk, l.length < MaxScanTokenSize) :
    scanLines chunk = lines chunk :=
  scanFrom_eq_lines chunk [] hfit

theorem readHeaderLines_no_status (ls : List (List Byte)) (header body : List Byte)
    (h : ∀ x ∈ ls, isStatusLine x = false) :
    readHeaderLines Buffer Buffer ls header body = (header ++ joinLines ls, body, none) := by
  induction ls generalizing header with
  | nil => simp [readHeaderLines, joinLines]
  | cons l rest ih =>
    have hl : isStatusLine l = false := h l (List.mem_cons_self _ _)
    simp only [readHeaderLines, hl, Bool.false_eq_true, if_false, Buffer]
    have := ih ((header ++ l) ++ [10]) (fun x hx => h x (List.mem_cons_of_mem _ hx))
    simp only [Buffer] at this
    rw [this]
    simp [joinLines]

theorem readHeaderLines_last_status (pre : List (List Byte)) (l : List Byte)
    (suf : List (List Byte)) (header body : List Byte) (hl : isStatusLine l = true)
    (hsuf : ∀ x ∈ suf, isStatusLine x = false) :
    readHeaderLines Buffer Buffer (pre ++ l :: suf) header body
      = (joinLines (l :: suf), [], none) := by
  induction pre generalizing header body with
  | nil =>
    simp only [List.nil_append, readHeaderLines, hl, if_true, Buffer]
    have := readHeaderLines_no_status suf (l ++ [10]) [] hsuf
    simp only [Buffer] at this
    rw [this]
    simp [joinLines]
  | cons x rest ih =>
    simp only [List.cons_append, readHeaderLines, Buffer]
    exact ih _ _

/-- Within the scanner's limit `readHeader` discards provisional responses: when
every raw line of the chunk is shorter than `MaxScanTokenSize`, the header
buffer ends up holding the lines from the last status line on, each followed by a
line feed, and the body buffer is empty; without a status line every line is
appended to the header buffer and the body buffer is unchanged. -/
theorem readHeader_within_limit (chunk header body : List Byte)
    (hfit : ∀ l ∈ rawLines chunk, l.length < MaxScanTokenSize) :
    (∀ pre l suf, lines chunk = pre ++ l :: suf → isStatusLine l = true →
      (∀ x ∈ suf, isStatusLine x = false) →
      readHeader Buffer Buffer chunk header body = (joinLines (l :: suf), [], none)) ∧
    ((∀ x ∈ lines chunk, isStatusLine x = false) →
      readHeader Buffer Buffer chunk header body
        = (header ++ joinLines (lines chunk), body, none)) := by
  unfold readHeader
  rw [scanLines_eq_lines chunk hfit]
  constructor
  · intro pre l suf heq hl hsuf
    rw [heq]
    exact readHeaderLines_last_status pre l suf header body hl hsuf
  · intro h
    exact readHeaderLines_no_status _ header body h

theorem scanFrom_replicate (n : Nat) (cur : List Byte) (h : MaxScanTokenSize ≤ cur.length + n) :
    scanFrom cur (List.replicate n 97 ++ [10]) = [] := by
  induction n generalizing cur with
  | zero =>
    simp only [List.replicate_zero, List.nil_append, scanFrom, if_true]
    rw [if_neg (by simpa using h)]
  | succ k ih =>
    have h97 : ¬ ((97 : Byte) = 10) := by decide
    simp only [List.replicate_succ, List.cons_append, scanFrom, h97, if_false]
    exact ih (97 :: cur) (by simp only [List.length_cons]; omega)

theorem rawLinesFrom_replicate (n : Nat) (cur : List Byte) :
    rawLinesFrom cur (List.replicate n 97 ++ [10]) = [cur.reverse ++ List.replicate n 97] := by
  induction n generalizing cur with
  | zero => simp [rawLinesFrom]
  | succ k ih =>
    have h97 : ¬ ((97 : Byte) = 10) := by decide
    simp only [List.replicate_succ, List.cons_append, rawLinesFrom, h97, if_false]
    exact (ih (97 :: cur)).trans (by simp)

theorem dropCR_subset (data : List Byte) : dropCR data ⊆ data := by
  unfold dropCR
  split
  · exact (List.dropLast_sublist data).subset
  · exact List.Subset.refl _

theorem isStatusLine_of_all_a (x : List Byte) (h : ∀ b ∈ x, b = 97) :
    isStatusLine x = false := by
  cases x with
  | nil => rfl
  | cons a rest =>
    have ha : a = 97 := h a (List.mem_cons_self _ _)
    rw [ha]
    rfl

theorem joinLines_length_pos (l : List Byte) (rest : List (List Byte)) :
    0 < (joinLines (l :: rest)).length := by
  simp [joinLines]

theorem rawLines_longLine : rawLines longLine = [List.replicate MaxScanTokenSize 97] := by
  unfold rawLines longLine
  rw [rawLinesFrom_replicate, List.reverse_nil, List.nil_append]

theorem scanLines_longLine : scanLines longLine = [] := by
  unfold scanLines longLine
  exact scanFrom_replicate MaxScanTokenSize [] (Nat.le_add_left _ _)

theorem readHeader_longLine (header body : List Byte) :
    readHeader Buffer Buffer longLine header body = (header, body, none) := by
  unfold readHeader
  rw [scanLines_longLine]
  unfold readHeaderLines
  rfl

theorem lines_longLine_no_status : ∀ x ∈ lines longLine, isStatusLine x = false := by
  intro x hx
  unfold lines at hx
  rw [rawLines_longLine, List.map_cons, List.map_nil, List.mem_singleton] at hx
  rw [hx]
  exact isStatusLine_of_all_a _ (fun b hb => List.eq_of_mem_replicate (dropCR_subset _ hb))

theorem joinLines_longLine_pos : 0 < (joinLines (lines longLine)).length := by
  unfold lines
  rw [rawLines_longLine]
  exact joinLines_length_pos _ _

theorem ne_with_appended (header body j : List Byte) (hpos : 0 < j.length) :
    (header, body, (none : Option error)) ≠ (header ++ j, body, none) := by
  intro h
  have hlen := congrArg (fun r => r.1.length) h
  simp only [List.length_append] at hlen
  omega

/-- C1 (failing input): a header chunk that is one line of 65536 bytes and a
line feed has that line as its only raw line, and no status line, but the
scanner delivers no line for it: `readHeader` returns nil and leaves the header
and body buffers as they were, so the header buffer is not its prior content
followed by the line. -/
theorem readHeader_drops_long_line :
    MaxScanTokenSize = 65536 ∧
    rawLines longLine = [List.replicate MaxScanTokenSize 97] ∧
    (∀ x ∈ lines longLine, isStatusLine x = false) ∧
    scanLines longLine = [] ∧
    readHeader Buffer Buffer longLine [72, 10] [] = ([72, 10], [], none) ∧
    readHeader Buffer Buffer longLine [72, 10] []
      ≠ ([72, 10] ++ joinLines (lines longLine), [], none) := by
  refine ⟨by decide, rawLines_longLine, lines_longLine_no_status, scanLines_longLine,
    readHeader_longLine _ _, ?_⟩
  rw [readHeader_longLine]
  exact ne_with_appended _ _ _ joinLines_longLine_pos

theorem readHeader_within_limit_witness :
    (∀ l ∈ rawLines continueChunk, l.length < MaxScanTokenSize) ∧
    readHeader Buffer Buffer continueChunk [1, 2] [3]
      = (joinLines ([72, 84, 84, 80, 47, 49, 46, 49, 32, 50, 48, 48] :: [[88, 58, 49]]),
          [], none) :=
  ⟨by decide,
    (readHeader_within_limit continueChunk [1, 2] [3] (by decide)).1
      [[72, 84, 84, 80, 47, 49, 46, 49, 32, 49, 48, 48], []]
      [72, 84, 84, 80, 47, 49, 46, 49, 32, 50, 48, 48] [[88, 58, 49]]
      (by decide) (by decide) (by decide)⟩

/-! ## The pool -/

theorem cons_eraseIdx_perm {α : Type} (l : List α) (i : Nat) (a : α) (h : l[i]? = some a) :
    (a :: l.eraseIdx i).Perm l := by
  induction l generalizing i with
  | nil => simp at h
  | cons x xs ih =>
    cases i with
    | zero =>
      simp only [List.getElem?_cons_zero, Option.some.injEq] at h
      rw [h]
      exact List.Perm.refl _
    | succ j =>
      simp only [List.getElem?_cons_succ] at h
      simp only [List.eraseIdx_cons_succ]
      exact (List.Perm.swap x a _).trans ((ih j h).cons x)

theorem syncPoolGet_nil (E : Env) : syncPoolGet E [] = none := by
  simp [syncPoolGet]

theorem syncPoolGet_some (E : Env) (items : List curlBox) (h : items ≠ []) :
    ∃ box rest, syncPoolGet E items = some (box, rest) ∧ (box :: rest).Perm items := by
  have hlt : E.poolPick items % items.length < items.length :=
    Nat.mod_lt _ (List.length_pos.mpr h)
  have hget : items[E.poolPick items % items.length]?
      = some (items[E.poolPick items % items.length]) := List.getElem?_eq_getElem hlt
  refine ⟨items[E.poolPick items % items.length],
    items.eraseIdx (E.poolPick items % items.length), ?_, cons_eraseIdx_perm _ _ _ hget⟩
  unfold syncPoolGet
  rw [hget]

theorem get_of_empty (E : Env) (p : FinalizingPool) (w : World) (h : p.pool = []) :
    p.Get E w = (⟨w.next⟩, p, ⟨w.next + 1, w.log ++ [.EasyInit ⟨w.next⟩]⟩) := by
  unfold FinalizingPool.Get
  rw [h, syncPoolGet_nil]

theorem get_of_nonempty (E : Env) (p : FinalizingPool) (w : World) (h : p.pool ≠ []) :
    (⟨(p.Get E w).1⟩ :: (p.Get E w).2.1.pool).Perm p.pool ∧
    (p.Get E w).2.2.next = w.next ∧
    (p.Get E w).2.2.log = w.log ++ [.SetFinalizer (p.Get E w).1 false] := by
  obtain ⟨box, rest, hsome, hperm⟩ := syncPoolGet_some E p.pool h
  unfold FinalizingPool.Get
  rw [hsome]
  exact ⟨hperm, rfl, rfl⟩

theorem putAll_spec (hs : List CURL) (p : FinalizingPool) (w : World) :
    (putAll p hs w).1.pool = p.pool ++ hs.map curlBox.mk ∧
    (putAll p hs w).2.next = w.next ∧
    ∃ evs, (putAll p hs w).2.log = w.log ++ evs ∧ ∀ c, Event.EasyInit c ∉ evs := by
  induction hs generalizing p w with
  | nil => exact ⟨by simp [putAll], rfl, [], by simp [putAll], by simp⟩
  | cons h rest ih =>
    obtain ⟨h1, h2, evs, h3, h4⟩ := ih (p.Put h w).1 (p.Put h w).2
    have hstep : putAll p (h :: rest) w = putAll (p.Put h w).1 rest (p.Put h w).2 := rfl
    rw [hstep]
    refine ⟨?_, ?_, [.SetFinalizer h true, .Put h] ++ evs, ?_, ?_⟩
    · rw [h1]
      simp [FinalizingPool.Put, syncPoolPut]
    · rw [h2]
      rfl
    · rw [h3]
      simp [FinalizingPool.Put, World.record]
    · intro c hc
      simp only [List.mem_append, List.mem_cons, List.mem_singleton, List.not_mem_nil,
        or_false, reduceCtorEq, false_or] at hc
      exact h4 c hc

theorem getN_spec (E : Env) (n : Nat) (p : FinalizingPool) (w : World)
    (hlen : p.pool.length = n) :
    ((getN E n p w).1.map curlBox.mk).Perm p.pool ∧
    (getN E n p w).2.1.pool = [] ∧
    (getN E n p w).2.2.next = w.next ∧
    ∃ evs, (getN E n p w).2.2.log = w.log ++ evs ∧ ∀ c, Event.EasyInit c ∉ evs := by
  induction n generalizing p w with
  | zero =>
    have hnil : p.pool = [] := List.length_eq_zero.mp hlen
    exact ⟨by simp [getN, hnil], hnil, rfl, [], by simp [getN], by simp⟩
  | succ k ih =>
    have hne : p.pool ≠ [] := by
      intro h
      rw [h] at hlen
      simp at hlen
    obtain ⟨hperm, hnext, hlog⟩ := get_of_nonempty E p w hne
    have hlen1 : (p.Get E w).2.1.pool.length = k := by
      have := hperm.length_eq
      simp only [List.length_cons] at this
      omega
    obtain ⟨i1, i2, i3, evs, i4, i5⟩ := ih (p.Get E w).2.1 (p.Get E w).2.2 hlen1
    have hstep : getN E (k + 1) p w =
        ((p.Get E w).1 :: (getN E k (p.Get E w).2.1 (p.Get E w).2.2).1,
          (getN E k (p.Get E w).2.1 (p.Get E w).2.2).2.1,
          (getN E k (p.Get E w).2.1 (p.Get E w).2.2).2.2) := rfl
    rw [hstep]
    refine ⟨?_, i2, ?_, [.SetFinalizer (p.Get E w).1 false] ++ evs, ?_, ?_⟩
    · simp only [List.map_cons]
      exact (i1.cons _).trans hperm
    · simp only
      rw [i3, hnext]
    · simp only
      rw [i4, hlog]
      simp
    · intro c hc
      simp only [List.singleton_append, List.mem_cons, reduceCtorEq, false_or] at hc
      exact i5 c hc

/-- C7: after `Put` of the handles `hs` on an empty pool, as many `Get` calls
return a permutation of `hs` (so distinct handles are returned once each),
create no handle and empty the storage, and the next `Get` creates a fresh
handle; every `Get` on a non-empty storage removes the box of the handle it
returns. -/
theorem pool_reuse_before_creation (E : Env) (hs : List CURL) (w : World) :
    (getN E hs.length (putAll ⟨[]⟩ hs w).1 (putAll ⟨[]⟩ hs w).2).1.Perm hs ∧
    (hs.Nodup → (getN E hs.length (putAll ⟨[]⟩ hs w).1 (putAll ⟨[]⟩ hs w).2).1.Nodup) ∧
    (getN E hs.length (putAll ⟨[]⟩ hs w).1 (putAll ⟨[]⟩ hs w).2).2.2.next = w.next ∧
    (∀ c, Event.EasyInit c ∉
      newEvents w (getN E hs.length (putAll ⟨[]⟩ hs w).1 (putAll ⟨[]⟩ hs w).2).2.2) ∧
    (getN E hs.length (putAll ⟨[]⟩ hs w).1 (putAll ⟨[]⟩ hs w).2).2.1.pool = [] ∧
    ((getN E hs.length (putAll ⟨[]⟩ hs w).1 (putAll ⟨[]⟩ hs w).2).2.1.Get E
      (getN E hs.length (putAll ⟨[]⟩ hs w).1 (putAll ⟨[]⟩ hs w).2).2.2).1 = ⟨w.next⟩ ∧
    newEvents (getN E hs.length (putAll ⟨[]⟩ hs w).1 (putAll ⟨[]⟩ hs w).2).2.2
      ((getN E hs.length (putAll ⟨[]⟩ hs w).1 (putAll ⟨[]⟩ hs w).2).2.1.Get E
        (getN E hs.length (putAll ⟨[]⟩ hs w).1 (putAll ⟨[]⟩ hs w).2).2.2).2.2
      = [.EasyInit ⟨w.next⟩] ∧
    (∀ (p : FinalizingPool) (w1 : World), p.pool ≠ [] →
      (⟨(p.Get E w1).1⟩ :: (p.Get E w1).2.1.pool).Perm p.pool ∧
      (p.Get E w1).2.2.next = w1.next) := by
  obtain ⟨p1, p2, pevs, p3, p4⟩ := putAll_spec hs ⟨[]⟩ w
  have hlen : (putAll ⟨[]⟩ hs w).1.pool.length = hs.length := by
    rw [p1]
    simp
  obtain ⟨g1, g2, g3, gevs, g4, g5⟩ :=
    getN_spec E hs.length (putAll ⟨[]⟩ hs w).1 (putAll ⟨[]⟩ hs w).2 hlen
  have hperm : (getN E hs.length (putAll ⟨[]⟩ hs w).1 (putAll ⟨[]⟩ hs w).2).1.Perm hs := by
    rw [p1] at g1
    simp only [List.nil_append] at g1
    have h := g1.map curlBox.curl
    simpa [List.map_map, Function.comp_def] using h
  have hget := get_of_empty E
    (getN E hs.length (putAll ⟨[]⟩ hs w).1 (putAll ⟨[]⟩ hs w).2).2.1
    (getN E hs.length (putAll ⟨[]⟩ hs w).1 (putAll ⟨[]⟩ hs w).2).2.2 g2
  refine ⟨hperm, fun hnd => hperm.nodup_iff.mpr hnd, by rw [g3, p2], ?_, g2, ?_, ?_, ?_⟩
  · intro c hc
    have hlog : (getN E hs.length (putAll ⟨[]⟩ hs w).1 (putAll ⟨[]⟩ hs w).2).2.2.log
        = w.log ++ (pevs ++ gevs) := by
      rw [g4, p3, List.append_assoc]
    rw [newEvents_of_log_eq hlog] at hc
    rcases List.mem_append.mp hc with h | h
    · exact p4 c h
    · exact g5 c h
  · rw [hget, g3, p2]
  · rw [hget]
    unfold newEvents
    simp only [List.drop_left]
    rw [g3, p2]
  · intro p w1 hne
    exact ⟨(get_of_nonempty E p w1 hne).1, (get_of_nonempty E p w1 hne).2.1⟩

theorem pool_reuse_before_creation_witness :
    (getN plainEnv 2 (putAll ⟨[]⟩ [⟨5⟩, ⟨6⟩] World.init).1
      (putAll ⟨[]⟩ [⟨5⟩, ⟨6⟩] World.init).2).1.Perm [⟨5⟩, ⟨6⟩] :=
  (pool_reuse_before_creation plainEnv [⟨5⟩, ⟨6⟩] World.init).1

end CurlTransport
